import Mathlib

/-!
Shallow embedding of the ensemble prediction / online-adaptation engine of
`src/bot.js` (class `DerivTradingBot`), together with proofs about the claims
of the specification.  Prices and table values are modelled as rationals where
the source only performs field operations on them, and as reals where the
source applies transcendental functions (`Math.exp`, `Math.log`, `Math.log2`,
`Math.sqrt`, `Math.tanh`).
-/

namespace DerivBot

/-- Digit parity class used as Q-table state and action (`'odd'`/`'even'`). -/
inductive Parity | odd | even
deriving DecidableEq, Repr

/-- One model's lifetime accuracy counters (`initModelPerformance`). -/
structure Perf where
  correct : Nat
  total : Nat
deriving DecidableEq, Repr

/-- `this.modelPerformance`: one counter pair per model, indexed in source
order: 0 = stat, 1 = markov, 2 = trend, 3 = qlearning, 4 = streak,
5 = pattern, 6 = entropy, 7 = cycle. -/
def ModelPerf := Fin 8 → Perf

/-- `perf.total > 0 ? perf.correct / perf.total : 0.5` (`getAdaptiveWeights`). -/
def accuracy (p : Perf) : ℚ := if 0 < p.total then (p.correct : ℚ) / p.total else 1/2

/-- `Math.pow(accuracy, 2)` (`getAdaptiveWeights`). -/
def rawWeight (p : Perf) : ℚ := accuracy p ^ 2

/-- The running `totalAccuracy` after the first loop of `getAdaptiveWeights`. -/
def totalRawWeight (mp : ModelPerf) : ℚ := ∑ m : Fin 8, rawWeight (mp m)

/-- Normalized weight before the floor:
`totalAccuracy > 0 ? weights[model] / totalAccuracy : 1 / 8`. -/
def normWeight (mp : ModelPerf) (m : Fin 8) : ℚ :=
  if 0 < totalRawWeight mp then rawWeight (mp m) / totalRawWeight mp else 1/8

/-- `Math.max(0.05, weights[model])`. -/
def flooredWeight (mp : ModelPerf) (m : Fin 8) : ℚ := max (1/20) (normWeight mp m)

/-- The second `totalAccuracy` (sum of the floored weights). -/
def flooredSum (mp : ModelPerf) : ℚ := ∑ m : Fin 8, flooredWeight mp m

/-- `getAdaptiveWeights`: floored weight divided by the floored sum. -/
def getAdaptiveWeights (mp : ModelPerf) (m : Fin 8) : ℚ :=
  flooredWeight mp m / flooredSum mp

lemma rawWeight_nonneg (p : Perf) : 0 ≤ rawWeight p := sq_nonneg _

lemma totalRawWeight_nonneg (mp : ModelPerf) : 0 ≤ totalRawWeight mp :=
  Finset.sum_nonneg fun m _ => rawWeight_nonneg (mp m)

lemma normWeight_nonneg (mp : ModelPerf) (m : Fin 8) : 0 ≤ normWeight mp m := by
  unfold normWeight
  split
  · exact div_nonneg (rawWeight_nonneg _) (le_of_lt (by assumption))
  · norm_num

lemma sum_normWeight (mp : ModelPerf) : ∑ m : Fin 8, normWeight mp m = 1 := by
  unfold normWeight
  by_cases h : 0 < totalRawWeight mp
  · simp only [if_pos h, ← Finset.sum_div]
    exact div_self (ne_of_gt h)
  · simp only [if_neg h]
    norm_num

lemma flooredWeight_ge (mp : ModelPerf) (m : Fin 8) : 1/20 ≤ flooredWeight mp m :=
  le_max_left _ _

lemma flooredWeight_le (mp : ModelPerf) (m : Fin 8) :
    flooredWeight mp m ≤ 1/20 + normWeight mp m :=
  max_le (by linarith [normWeight_nonneg mp m]) (by linarith)

lemma flooredSum_pos (mp : ModelPerf) : 0 < flooredSum mp := by
  have h : ∑ m : Fin 8, (1/20 : ℚ) ≤ ∑ m : Fin 8, flooredWeight mp m :=
    Finset.sum_le_sum (fun m _ => flooredWeight_ge mp m)
  simp only [Finset.sum_const, Finset.card_univ, Fintype.card_fin, nsmul_eq_mul] at h
  unfold flooredSum
  linarith

lemma flooredSum_le (mp : ModelPerf) : flooredSum mp ≤ 7/5 := by
  have h : ∑ m : Fin 8, flooredWeight mp m ≤ ∑ m : Fin 8, (1/20 + normWeight mp m) :=
    Finset.sum_le_sum (fun m _ => flooredWeight_le mp m)
  rw [Finset.sum_add_distrib, sum_normWeight, Finset.sum_const, Finset.card_univ,
    Fintype.card_fin, nsmul_eq_mul] at h
  unfold flooredSum
  linarith

lemma getAdaptiveWeights_sum (mp : ModelPerf) :
    ∑ m : Fin 8, getAdaptiveWeights mp m = 1 := by
  unfold getAdaptiveWeights
  rw [← Finset.sum_div]
  exact div_self (ne_of_gt (flooredSum_pos mp))

lemma getAdaptiveWeights_ge (mp : ModelPerf) (m : Fin 8) :
    1/28 ≤ getAdaptiveWeights mp m := by
  unfold getAdaptiveWeights
  rw [le_div_iff₀ (flooredSum_pos mp)]
  have h1 := flooredSum_le mp
  have h2 := flooredWeight_ge mp m
  linarith

/-- The per-model counter state used to refute the 0.05 floor: the stat model
has a perfect record (1/1) and the seven others are always wrong (0/1). -/
def lopsidedPerf : ModelPerf := fun m => if m = 0 then ⟨1, 1⟩ else ⟨0, 1⟩

/-- C2 counterexample: with one perfect model and seven always-wrong models,
the re-normalization after the 0.05 floor shrinks the other models' weights
to 1/27 ≈ 0.037, strictly below 0.05, so "every individual model weight is at
least 0.05" fails. -/
theorem getAdaptiveWeights_floor_violated :
    getAdaptiveWeights lopsidedPerf 1 < 1/20 := by
  have hr0 : rawWeight (lopsidedPerf 0) = 1 := by
    unfold lopsidedPerf rawWeight accuracy
    norm_num
  have hr : ∀ m : Fin 8, m ≠ 0 → rawWeight (lopsidedPerf m) = 0 := by
    intro m hm
    unfold lopsidedPerf rawWeight accuracy
    rw [if_neg hm]
    norm_num
  have htot : totalRawWeight lopsidedPerf = 1 := by
    unfold totalRawWeight
    rw [Fin.sum_univ_eight, hr0, hr 1 (by decide), hr 2 (by decide), hr 3 (by decide),
      hr 4 (by decide), hr 5 (by decide), hr 6 (by decide), hr 7 (by decide)]
    norm_num
  have hf0 : flooredWeight lopsidedPerf 0 = 1 := by
    unfold flooredWeight normWeight
    rw [htot, hr0]
    norm_num
  have hfm : ∀ m : Fin 8, m ≠ 0 → flooredWeight lopsidedPerf m = 1/20 := by
    intro m hm
    unfold flooredWeight normWeight
    rw [htot, hr m hm]
    norm_num
  have hfs : flooredSum lopsidedPerf = 27/20 := by
    unfold flooredSum
    rw [Fin.sum_univ_eight, hf0, hfm 1 (by decide), hfm 2 (by decide), hfm 3 (by decide),
      hfm 4 (by decide), hfm 5 (by decide), hfm 6 (by decide), hfm 7 (by decide)]
    norm_num
  unfold getAdaptiveWeights
  rw [hfs, hfm 1 (by decide)]
  norm_num

/-- C2 (amended): the weights returned by `getAdaptiveWeights` always sum to
1, and every individual weight is at least 1/28 (the 0.05 floor is applied
before the final re-normalization, which can shrink a floored weight by a
factor of up to the floored sum 7/5, so only the weaker bound survives). -/
theorem getAdaptiveWeights_sum_one_and_bounded (mp : ModelPerf) :
    ∑ m : Fin 8, getAdaptiveWeights mp m = 1 ∧
      ∀ m : Fin 8, 1/28 ≤ getAdaptiveWeights mp m :=
  ⟨getAdaptiveWeights_sum mp, getAdaptiveWeights_ge mp⟩

/-- C10: when every model has recorded trials but zero correct predictions,
the sum of squared accuracies is zero, no division by zero happens, every
model's normalized (pre-floor) weight is the uniform 1/8, and the returned
weight vector is the uniform 1/8 as well. -/
theorem getAdaptiveWeights_total_zero_accuracy (mp : ModelPerf)
    (h : ∀ m : Fin 8, 0 < (mp m).total ∧ (mp m).correct = 0) :
    totalRawWeight mp = 0 ∧ (∀ m : Fin 8, normWeight mp m = 1/8) ∧
      ∀ m : Fin 8, getAdaptiveWeights mp m = 1/8 := by
  have hraw : ∀ m : Fin 8, rawWeight (mp m) = 0 := by
    intro m
    have := h m
    unfold rawWeight accuracy
    rw [if_pos this.1, this.2]
    norm_num
  have htot : totalRawWeight mp = 0 := by
    unfold totalRawWeight
    exact Finset.sum_eq_zero fun m _ => hraw m
  have hnorm : ∀ m : Fin 8, normWeight mp m = 1/8 := by
    intro m
    unfold normWeight
    rw [htot]
    norm_num
  have hfloor : ∀ m : Fin 8, flooredWeight mp m = 1/8 := by
    intro m
    unfold flooredWeight
    rw [hnorm m]
    norm_num
  have hsum : flooredSum mp = 1 := by
    unfold flooredSum
    rw [Finset.sum_congr rfl fun m _ => hfloor m]
    norm_num
  refine ⟨htot, hnorm, fun m => ?_⟩
  unfold getAdaptiveWeights
  rw [hfloor m, hsum]
  norm_num

/-- Witness for C10 at the concrete counter state where every model is 0/1. -/
theorem getAdaptiveWeights_total_zero_accuracy_witness :
    (∀ m : Fin 8, 0 < ((fun _ => (⟨0, 1⟩ : Perf)) m).total ∧
        ((fun _ => (⟨0, 1⟩ : Perf)) m).correct = 0) ∧
      getAdaptiveWeights (fun _ => ⟨0, 1⟩) 0 = 1/8 :=
  ⟨fun _ => ⟨Nat.one_pos, rfl⟩,
    (getAdaptiveWeights_total_zero_accuracy (fun _ => ⟨0, 1⟩)
      (fun _ => ⟨Nat.one_pos, rfl⟩)).2.2 0⟩

/-! ## Meta-Q-table (string-keyed, JavaScript semantics)

The meta table is a JavaScript object mapping bucket keys `"vol_ent"` to an
inner object mapping strategy names to numbers.  Reading a missing key gives
`undefined` and arithmetic on it gives `NaN`; both non-numeric outcomes are
modelled by `JVal.nan`. -/

/-- A JavaScript number-or-not value stored in a table cell. -/
inductive JVal
  | num (q : ℚ)
  | nan
deriving DecidableEq, Repr

/-- An inner strategy→value object, as an association list in insertion
order (JavaScript objects preserve insertion order of string keys). -/
def Bucket := List (String × JVal)

/-- Assignment `obj[key] = v`: replace an existing key in place, otherwise
append the new key at the end (JavaScript object semantics). -/
def setKey (l : List (String × JVal)) (k : String) (v : JVal) : List (String × JVal) :=
  if l.any (fun p => p.1 = k) then
    l.map (fun p => if p.1 = k then (k, v) else p)
  else l ++ [(k, v)]

/-- `Math.max(...Object.values(obj))`: `NaN` if any value is `NaN`. -/
def maxVals : List JVal → JVal
  | [] => JVal.nan
  | v :: rest => rest.foldl
      (fun a b => match a, b with
        | JVal.num x, JVal.num y => JVal.num (max x y)
        | _, _ => JVal.nan) v

/-- `getDefaultMetaQTable`: 9 buckets (volatility level × entropy level),
each holding the three strategy variants at 0.5. -/
def getDefaultMetaQTable : List (String × Bucket) :=
  (["low", "medium", "high"].map fun vol =>
    (["low", "medium", "high"].map fun ent =>
      (vol ++ "_" ++ ent,
        ([("conservative", JVal.num (1/2)), ("balanced", JVal.num (1/2)),
          ("aggressive", JVal.num (1/2))] : Bucket)))).flatten

/-- `updateMetaQTable(volatilityState, entropyState, strategy, reward)`:
`Q[state][strategy] += 0.1 * (reward + 0.9 * max(Q[state][*]) - Q[state][strategy])`,
transcribed with JavaScript missing-key/NaN behaviour. -/
def updateMetaQTable (table : List (String × Bucket)) (volatilityState entropyState strategy : String)
    (reward : ℚ) : List (String × Bucket) :=
  let state := volatilityState ++ "_" ++ entropyState
  match table.lookup state with
  | none => table
  | some bucket =>
      let currentQ := bucket.lookup strategy
      let maxNextQ := maxVals (bucket.map (fun p => p.2))
      let newVal :=
        match currentQ, maxNextQ with
        | some (JVal.num q), JVal.num m => JVal.num (q + (1/10) * (reward + (9/10) * m - q))
        | _, _ => JVal.nan
      table.map (fun p => if p.1 = state then (state, setKey bucket strategy newVal) else p)

/-- The engine's operating mode (`this.currentMode`). -/
inductive Mode | balanced | exploration | precision
deriving DecidableEq, Repr

/-- The string stored in a trade record's `mode` field. -/
def modeName : Mode → String
  | Mode.balanced => "balanced"
  | Mode.exploration => "exploration"
  | Mode.precision => "precision"

/-- The third argument `processContractResult` passes to `updateMetaQTable`:
`lastTrade.mode || 'balanced'` — the operating mode, not the selected
strategy variant. -/
def metaStrategyArg (mode : Mode) : String := modeName mode

/-- C3 (code bug exhibited): resolving a trade that was placed in
`exploration` mode updates the meta table under the key `"exploration"`,
which is not a strategy variant: the `low_low` bucket ends up with four keys,
the new one bound to `NaN`, and none of the three strategy variants receives
the Q-update. -/
theorem updateMetaQTable_mode_key_pollution :
    (updateMetaQTable getDefaultMetaQTable "low" "low" (metaStrategyArg Mode.exploration)
        1).lookup "low_low" =
      some [("conservative", JVal.num (1/2)), ("balanced", JVal.num (1/2)),
        ("aggressive", JVal.num (1/2)), ("exploration", JVal.nan)] := by
  rfl

/-! ## Risk sizing (`selectStrategy`, `calculateStake`) -/

/-- The numeric knobs the engine reads from the configuration collaborator
(`config.get(...)` / convenience getters); the repository ships no
`config.json` under `src/`, so they stay abstract parameters. -/
structure Config where
  baseStake : ℚ
  martingaleMultiplier : ℚ
  baseLearningRate : ℚ
  learningRateDecay : ℚ
  discountFactor : ℚ
  maxHistory : ℕ

/-- `obj[key]` on an inner strategy object: `undefined` (modelled `nan`) when
missing. -/
def jLookupVal (strategies : Bucket) (k : String) : JVal :=
  (strategies.lookup k).getD JVal.nan

/-- JavaScript `a > b` on table values: false whenever either side is
non-numeric. -/
def jGT (a b : JVal) : Bool :=
  match a, b with
  | JVal.num x, JVal.num y => decide (y < x)
  | _, _ => false

open scoped Classical in
/-- `selectStrategy(volatility, entropy)`: bucket the two features, look the
bucket up in the meta table, and take the key with the highest value
(`Object.keys(...).reduce(...)`), defaulting to `"balanced"`. -/
noncomputable def selectStrategy (metaQTable : List (String × Bucket))
    (volatility entropy : ℝ) : String :=
  let volState := if volatility < 0.3 then "low" else if volatility < 0.7 then "medium" else "high"
  let entState := if entropy < 0.7 then "low" else if entropy < 0.9 then "medium" else "high"
  let state := volState ++ "_" ++ entState
  match metaQTable.lookup state with
  | none => "balanced"
  | some strategies =>
      match strategies.map (fun p => p.1) with
      | [] => "balanced"
      | k :: ks => ks.foldl
          (fun a b => if jGT (jLookupVal strategies a) (jLookupVal strategies b) then a else b) k

open scoped Classical in
/-- `calculateStake(volatility, entropy, confidence)`: martingale stake with
the meta-strategy multiplier, rounded to 2 decimals
(`Math.round(stake * 100) / 100`, and Mathlib's `round` is the same
half-up rounding as `Math.round`), then capped at `baseStake * 10`. -/
noncomputable def calculateStake (cfg : Config) (metaQTable : List (String × Bucket))
    (volatility entropy confidence : ℝ) (consecutiveLosses : ℕ) : ℚ :=
  let baseStake := cfg.baseStake
  let recommendedStrategy := selectStrategy metaQTable volatility entropy
  let strategyMultiplier : ℚ :=
    if recommendedStrategy = "conservative" then 0.75
    else if recommendedStrategy = "aggressive" ∧ confidence > 0.65 then 1.25
    else 1
  let stake := baseStake * cfg.martingaleMultiplier ^ consecutiveLosses * strategyMultiplier
  let stake := (round (stake * 100) : ℚ) / 100
  min stake (baseStake * 10)

/-- C5: whatever the number of consecutive losses, the selected strategy
variant and the confidence, the stake returned by `calculateStake` never
exceeds `10 * baseStake` (the cap is applied after rounding). -/
theorem calculateStake_le_cap (cfg : Config) (metaQTable : List (String × Bucket))
    (volatility entropy confidence : ℝ) (consecutiveLosses : ℕ) :
    calculateStake cfg metaQTable volatility entropy confidence consecutiveLosses ≤
      10 * cfg.baseStake := by
  unfold calculateStake
  calc _ ≤ cfg.baseStake * 10 := min_le_right _ _
  _ = 10 * cfg.baseStake := mul_comm _ _

/-! ## Engine state and the Q-table learning update -/

/-- `getDeepState` volatility level. -/
inductive VolLevel | low | medium | high
deriving DecidableEq, Repr

/-- `getDeepState` trend direction. -/
inductive TrendDir | bullish | neutral | bearish
deriving DecidableEq, Repr

/-- `getDeepState` streak-length level. -/
inductive StreakLevel | short | medium | long
deriving DecidableEq, Repr

/-- A deep-Q-table bucket key `vol_trend_streak` (3 × 3 × 3 = 27 states). -/
abbrev DeepKey := VolLevel × TrendDir × StreakLevel

/-- One buffered observation: `{ epoch, quote, digit }`. -/
structure Tick where
  epoch : ℕ
  quote : ℚ
  digit : ℕ
deriving DecidableEq, Repr

/-- `Math.floor(quote * 100) % 10` (non-negative remainder for the prices
the venue sends). -/
def digitOf (q : ℚ) : ℕ := (Int.floor (q * 100) % 10).toNat

/-- One entry of `this.patternMemory` (`storePattern`). -/
structure PatternEntry where
  sequence : List ℕ
  nextOutcome : Parity
  occurrences : ℕ
  successes : ℕ
  successRate : ℚ
deriving DecidableEq, Repr

/-- One entry of `this.contextMemory` (`storeContext`). -/
structure ContextEntry where
  volatility : ℝ
  entropy : ℝ
  streak : ℕ
  confidence : ℝ
  prediction : Parity
  result : Bool
  timestamp : ℕ

/-- `this.dataIntegrity`. -/
structure DataIntegrity where
  score : ℚ
  recentAnomalies : ℚ
deriving DecidableEq, Repr

/-- The mutable fields of the `DerivTradingBot` instance that the engine
core reads and writes. -/
structure EngineState where
  tickHistory : List Tick
  qTable : Parity → Parity → ℚ
  deepQTable : DeepKey → Parity → ℚ
  metaQTable : List (String × Bucket)
  patternMemory : List PatternEntry
  contextMemory : List ContextEntry
  wins : ℕ
  losses : ℕ
  consecutiveLosses : ℕ
  currentLearningRate : ℚ
  currentMode : Mode
  smoothedConfidence : ℝ
  dataIntegrity : DataIntegrity
  isBotRunning : Bool
  isPending : Bool
  currentContractId : Option ℕ
  nextTradeTime : ℕ

/-- `updateQTable(state, action, reward, deepState)`: shallow update
`Q[s][a] += lr * (reward - Q[s][a])`, deep TD update
`D[k][a] += lr * (reward + γ * max(D[k].odd, D[k].even) - D[k][a])`, then
learning-rate decay `lr = max(0.01, lr * decay)`. -/
def updateQTable (cfg : Config) (s : EngineState) (state action : Parity) (reward : ℚ)
    (deepState : DeepKey) : EngineState :=
  let lr := s.currentLearningRate
  let newQ : Parity → Parity → ℚ := fun st ac =>
    if st = state ∧ ac = action then
      s.qTable state action + lr * (reward - s.qTable state action)
    else s.qTable st ac
  let maxDeep := max (s.deepQTable deepState Parity.odd) (s.deepQTable deepState Parity.even)
  let newDeep : DeepKey → Parity → ℚ := fun k ac =>
    if k = deepState ∧ ac = action then
      s.deepQTable deepState action +
        lr * (reward + cfg.discountFactor * maxDeep - s.deepQTable deepState action)
    else s.deepQTable k ac
  { s with
    qTable := newQ
    deepQTable := newDeep
    currentLearningRate := max (1/100) (lr * cfg.learningRateDecay) }

/-- C9 (frame effect of `updateQTable`): the update writes exactly the
shallow cell `Q[state][action]`, the deep cell `DeepQ[deepState][action]`
and the current learning rate; every other shallow and deep cell, the meta
table, pattern memory, context memory, and all remaining engine fields are
left unchanged. -/
theorem updateQTable_frame (cfg : Config) (s : EngineState) (state action : Parity)
    (reward : ℚ) (deepState : DeepKey) :
    (∀ st ac, ¬(st = state ∧ ac = action) →
        (updateQTable cfg s state action reward deepState).qTable st ac = s.qTable st ac) ∧
      (∀ k ac, ¬(k = deepState ∧ ac = action) →
        (updateQTable cfg s state action reward deepState).deepQTable k ac =
          s.deepQTable k ac) ∧
      (updateQTable cfg s state action reward deepState).metaQTable = s.metaQTable ∧
      (updateQTable cfg s state action reward deepState).patternMemory = s.patternMemory ∧
      (updateQTable cfg s state action reward deepState).contextMemory = s.contextMemory ∧
      (updateQTable cfg s state action reward deepState).tickHistory = s.tickHistory ∧
      (updateQTable cfg s state action reward deepState).wins = s.wins ∧
      (updateQTable cfg s state action reward deepState).losses = s.losses ∧
      (updateQTable cfg s state action reward deepState).consecutiveLosses =
        s.consecutiveLosses ∧
      (updateQTable cfg s state action reward deepState).currentMode = s.currentMode ∧
      (updateQTable cfg s state action reward deepState).dataIntegrity = s.dataIntegrity ∧
      (updateQTable cfg s state action reward deepState).currentLearningRate =
        max (1/100) (s.currentLearningRate * cfg.learningRateDecay) := by
  refine ⟨fun st ac h => ?_, fun k ac h => ?_, rfl, rfl, rfl, rfl, rfl, rfl, rfl, rfl, rfl, rfl⟩
  · simp only [updateQTable, if_neg h]
  · simp only [updateQTable, if_neg h]

/-- A concrete engine state used to instantiate frame theorems. -/
noncomputable def blankState : EngineState where
  tickHistory := []
  qTable := fun _ _ => 1/2
  deepQTable := fun _ _ => 1/2
  metaQTable := getDefaultMetaQTable
  patternMemory := []
  contextMemory := []
  wins := 0
  losses := 0
  consecutiveLosses := 0
  currentLearningRate := 1/10
  currentMode := Mode.balanced
  smoothedConfidence := 1/2
  dataIntegrity := ⟨1, 0⟩
  isBotRunning := true
  isPending := false
  currentContractId := none
  nextTradeTime := 0

/-- Witness for C9: at a concrete state, updating cell (odd, odd) leaves the
shallow cell (even, odd) and every engine structure unchanged. -/
theorem updateQTable_frame_witness :
    ¬(Parity.even = Parity.odd ∧ Parity.odd = Parity.odd) ∧
      (updateQTable ⟨1, 2, 1/10, 99/100, 9/10, 1000⟩ blankState Parity.odd Parity.odd 1
          (VolLevel.low, TrendDir.neutral, StreakLevel.short)).qTable Parity.even Parity.odd =
        blankState.qTable Parity.even Parity.odd ∧
      (updateQTable ⟨1, 2, 1/10, 99/100, 9/10, 1000⟩ blankState Parity.odd Parity.odd 1
          (VolLevel.low, TrendDir.neutral, StreakLevel.short)).patternMemory =
        blankState.patternMemory := by
  have hne : ¬(Parity.even = Parity.odd ∧ Parity.odd = Parity.odd) := by
    intro h
    cases h.1
  refine ⟨hne, ?_, ?_⟩
  · exact (updateQTable_frame ⟨1, 2, 1/10, 99/100, 9/10, 1000⟩ blankState Parity.odd
      Parity.odd 1 (VolLevel.low, TrendDir.neutral, StreakLevel.short)).1 Parity.even
      Parity.odd hne
  · exact (updateQTable_frame ⟨1, 2, 1/10, 99/100, 9/10, 1000⟩ blankState Parity.odd
      Parity.odd 1 (VolLevel.low, TrendDir.neutral, StreakLevel.short)).2.2.2.1

/-! ## Tick validation and the data-integrity score (`validateTickData`) -/

/-- The state effects of `validateTickData`: the price-jump test
`priceChange > recentVolatility * 5` is received as the boolean `anomalous`
(the caller computes it; see `validateTick` below), and the two branches are
transcribed verbatim: anomaly decay `score = max(0.5, score * 0.95)` with
`recentAnomalies++` and rejection, or gradual recovery
`score = min(1.0, score + 0.01)` with `recentAnomalies = max(0,
recentAnomalies - 0.1)` applied only while `recentAnomalies > 0`. -/
def validateTickData (d : DataIntegrity) (anomalous : Bool) : DataIntegrity × Bool :=
  if anomalous then
    (⟨max (1/2) (d.score * (19/20)), d.recentAnomalies + 1⟩, false)
  else if 0 < d.recentAnomalies then
    (⟨min 1 (d.score + 1/100), max 0 (d.recentAnomalies - 1/10)⟩, true)
  else (d, true)

/-- Data-integrity states reachable from the constructor value
`{ score: 1.0, recentAnomalies: 0 }` under any sequence of validated
observations (`validateTickData` is the only writer of `this.dataIntegrity`). -/
inductive DIReachable : DataIntegrity → Prop
  | init : DIReachable ⟨1, 0⟩
  | step (d : DataIntegrity) (anomalous : Bool) :
      DIReachable d → DIReachable (validateTickData d anomalous).1

/-- Invariant of the data-integrity state: the score stays in [0.5, 1], the
anomaly counter stays non-negative, and a score deficit is always covered by
pending recovery steps (`score + recentAnomalies/10 ≥ 1`). -/
lemma DIReachable.invariant {d : DataIntegrity} (h : DIReachable d) :
    1/2 ≤ d.score ∧ d.score ≤ 1 ∧ 0 ≤ d.recentAnomalies ∧
      1 ≤ d.score + d.recentAnomalies / 10 := by
  induction h with
  | init => norm_num
  | step d anomalous _ ih =>
      obtain ⟨h1, h2, h3, h4⟩ := ih
      cases anomalous with
      | true =>
          simp only [validateTickData, if_pos]
          refine ⟨le_max_left _ _, ?_, by linarith, ?_⟩
          · exact max_le (by norm_num) (by linarith)
          · rcases max_cases (1/2 : ℚ) (d.score * (19/20)) with ⟨he, _⟩ | ⟨he, _⟩ <;>
              rw [he] <;> linarith
      | false =>
          simp only [validateTickData, Bool.false_eq_true, if_false]
          by_cases hra : 0 < d.recentAnomalies
          · rw [if_pos hra]
            refine ⟨le_min (by norm_num) (by linarith), min_le_left _ _, le_max_left _ _, ?_⟩
            rcases min_cases (1 : ℚ) (d.score + 1/100) with ⟨he, _⟩ | ⟨he, _⟩ <;>
              rcases max_cases (0 : ℚ) (d.recentAnomalies - 1/10) with ⟨hf, _⟩ | ⟨hf, _⟩ <;>
              rw [he, hf] <;> linarith
          · rw [if_neg hra]
            exact ⟨h1, h2, h3, h4⟩

lemma validateTickData_clean_recovery (d : DataIntegrity) (h : DIReachable d)
    (hlt : d.score < 1) :
    (validateTickData d false).1.score = min 1 (d.score + 1/100) ∧
      d.score < (validateTickData d false).1.score ∧
      (validateTickData d false).2 = true := by
  obtain ⟨h1, h2, h3, h4⟩ := h.invariant
  have hra : 0 < d.recentAnomalies := by
    by_contra hc
    push_neg at hc
    have : d.recentAnomalies = 0 := le_antisymm hc h3
    rw [this] at h4
    norm_num at h4
    linarith
  have hbranch : validateTickData d false =
      (⟨min 1 (d.score + 1/100), max 0 (d.recentAnomalies - 1/10)⟩, true) := by
    simp only [validateTickData, Bool.false_eq_true, if_false, if_pos hra]
  rw [hbranch]
  exact ⟨rfl, lt_min hlt (by linarith), rfl⟩

/-! ## Feature extractors over the tick buffer -/

/-- `calculateEMA(data, window)`: exponential moving average over the last
`window` quotes, seeded with the first of them, `alpha = 2 / (window + 1)`. -/
def calculateEMA (data : List ℚ) (window : ℕ) : ℚ :=
  if data.length < window then 0
  else
    match data.drop (data.length - window) with
    | [] => 0
    | x :: rest =>
        rest.foldl
          (fun ema q => (2 / ((window : ℚ) + 1)) * q + (1 - 2 / ((window : ℚ) + 1)) * ema) x

/-- `calculateVolatility(data, window)`: square root of the exponentially
weighted (`exp(-0.1 * (window - idx - 1))`) mean squared deviation of the
last `window` quotes around their EMA. -/
noncomputable def calculateVolatility (data : List ℚ) (window : ℕ) : ℝ :=
  if data.length < window then 0
  else
    Real.sqrt ((∑ i in Finset.range window,
        Real.exp (-(0.1 : ℝ) * ((window : ℝ) - (i : ℝ) - 1)) *
          (((data.drop (data.length - window)).getD i 0 - calculateEMA data window : ℚ) : ℝ) ^ 2) /
      (window : ℝ))

/-- The entropy accumulation loop of `calculateEntropy`: iterate over the 10
digit counts, skip zero counts, and subtract `p * Math.log2(p)`. -/
noncomputable def entropySum (digitCount : ℕ → ℕ) (window : ℕ) : ℝ :=
  ∑ d in Finset.range 10,
    if 0 < digitCount d then
      -(((digitCount d : ℝ) / (window : ℝ)) * Real.logb 2 ((digitCount d : ℝ) / (window : ℝ)))
    else 0

/-- `calculateEntropy(history, window)`: Shannon entropy of the 10-way digit
distribution over the last `window` digits, in bits, normalized by
`log2(10)`; zero-count digits are skipped and short histories give 0. -/
noncomputable def calculateEntropy (history : List ℕ) (window : ℕ) : ℝ :=
  if history.length < window then 0
  else
    entropySum
      (fun d => ((history.drop (history.length - window)).filter fun x => x = d).length)
      window / Real.logb 2 10

/-! ## Tick ingestion (`handleTick`) -/

/-- An incoming `tick` message after `parseFloat`: `none` models a
non-numeric quote (`NaN`). -/
structure RawTick where
  epoch : ℕ
  quote : Option ℚ

open scoped Classical in
/-- The full `validateTickData(newTick, previousTick)`: compute
`priceChange` and `recentVolatility` (1 when fewer than 20 ticks are
buffered) and dispatch on `priceChange > recentVolatility * 5` into the
state effects of `validateTickData`. -/
noncomputable def validateTick (hist : List Tick) (d : DataIntegrity) (newTick : Tick)
    (previousTick : Option Tick) : DataIntegrity × Bool :=
  match previousTick with
  | none => (d, true)
  | some prev =>
      let recentVolatility : ℝ :=
        if 20 ≤ hist.length then calculateVolatility (hist.map Tick.quote) 20 else 1
      if recentVolatility * 5 < ((|newTick.quote - prev.quote| : ℚ) : ℝ) then
        validateTickData d true
      else validateTickData d false

open scoped Classical in
/-- `autoTuneLearningParameters`: learning-rate adjustment from the lifetime
win rate and mode switching from the entropy of the last 50 digits
(defaulting to 0.8 when fewer than 50 ticks are buffered); a no-op below 10
completed trades. -/
noncomputable def autoTuneLearningParameters (cfg : Config) (s : EngineState) : EngineState :=
  if s.wins + s.losses < 10 then s
  else
    let winRate : ℚ := (s.wins : ℚ) / ((s.wins : ℚ) + (s.losses : ℚ))
    let recentEntropy : ℝ :=
      if 50 ≤ s.tickHistory.length then calculateEntropy (s.tickHistory.map Tick.digit) 50
      else 0.8
    let lr :=
      if winRate < 0.45 then min (cfg.baseLearningRate * 1.2) (s.currentLearningRate * 1.05)
      else if 0.55 < winRate then max 0.01 (s.currentLearningRate * cfg.learningRateDecay)
      else s.currentLearningRate
    let mode :=
      if 0.9 < recentEntropy ∧ s.currentMode ≠ Mode.exploration then Mode.exploration
      else if recentEntropy < 0.7 ∧ s.currentMode ≠ Mode.precision then Mode.precision
      else if 0.7 ≤ recentEntropy ∧ recentEntropy ≤ 0.9 ∧ s.currentMode ≠ Mode.balanced then
        Mode.balanced
      else s.currentMode
    { s with currentLearningRate := lr, currentMode := mode }

open scoped Classical in
/-- `shouldEnterCooldown`: after 3+ consecutive losses and recent entropy
above 0.9, push `nextTradeTime` out by `(5 + consecutiveLosses)` tick
intervals (2000 ms each) and report the cooldown. -/
noncomputable def shouldEnterCooldown (s : EngineState) (now : ℕ) : EngineState × Bool :=
  if s.consecutiveLosses < 3 then (s, false)
  else
    let recentEntropy : ℝ :=
      if 50 ≤ s.tickHistory.length then calculateEntropy (s.tickHistory.map Tick.digit) 50
      else 0.8
    if 3 ≤ s.consecutiveLosses ∧ 0.9 < recentEntropy then
      ({ s with nextTradeTime := now + (5 + s.consecutiveLosses) * 2000 }, true)
    else (s, false)

open scoped Classical in
/-- `handleTick(message)` up to the point where `analyzeAndTrade` would be
scheduled (the returned flag): non-numeric quotes are dropped, stale or
duplicate epochs are dropped, otherwise the tick is validated, appended
(with size-capped eviction), the periodic auto-tuner runs every 50 ticks,
and the decision gate fires only when the bot is running, no contract is in
flight, the cooldown has elapsed, nothing is pending, the tick validated
clean, and `shouldEnterCooldown` does not trigger. -/
noncomputable def handleTick (cfg : Config) (s : EngineState) (now : ℕ) (msg : RawTick) :
    EngineState × Bool :=
  match msg.quote with
  | none => (s, false)
  | some q =>
      let newTick : Tick := ⟨msg.epoch, q, digitOf q⟩
      if s.tickHistory = [] ∨ (s.tickHistory.getLast?.elim 0 Tick.epoch) < msg.epoch then
        let vres := validateTick s.tickHistory s.dataIntegrity newTick s.tickHistory.getLast?
        let hist1 := s.tickHistory ++ [newTick]
        let hist2 := if cfg.maxHistory < hist1.length then hist1.drop 1 else hist1
        let s1 := { s with tickHistory := hist2, dataIntegrity := vres.1 }
        let s2 := if hist2.length % 50 = 0 then autoTuneLearningParameters cfg s1 else s1
        if s2.isBotRunning = true ∧ s2.currentContractId = none ∧ s2.nextTradeTime ≤ now ∧
            s2.isPending = false ∧ vres.2 = true then
          let cres := shouldEnterCooldown s2 now
          (cres.1, !cres.2)
        else (s2, false)
      else (s, false)

lemma autoTune_preserves (cfg : Config) (s : EngineState) :
    (autoTuneLearningParameters cfg s).tickHistory = s.tickHistory ∧
      (autoTuneLearningParameters cfg s).dataIntegrity = s.dataIntegrity ∧
      (autoTuneLearningParameters cfg s).isBotRunning = s.isBotRunning ∧
      (autoTuneLearningParameters cfg s).currentContractId = s.currentContractId ∧
      (autoTuneLearningParameters cfg s).nextTradeTime = s.nextTradeTime ∧
      (autoTuneLearningParameters cfg s).isPending = s.isPending := by
  unfold autoTuneLearningParameters
  split
  · exact ⟨rfl, rfl, rfl, rfl, rfl, rfl⟩
  · exact ⟨rfl, rfl, rfl, rfl, rfl, rfl⟩

/-- C8: an incoming tick whose quote is non-numeric, or whose epoch is not
strictly greater than the newest buffered tick's, is rejected by
`handleTick`: the entire engine state is returned unchanged and no analysis
is scheduled. -/
theorem handleTick_rejects (cfg : Config) (s : EngineState) (now : ℕ) (msg : RawTick)
    (h : msg.quote = none ∨
      (s.tickHistory ≠ [] ∧ ¬(s.tickHistory.getLast?.elim 0 Tick.epoch < msg.epoch))) :
    handleTick cfg s now msg = (s, false) := by
  obtain ⟨e, oq⟩ := msg
  cases oq with
  | none => rfl
  | some q =>
      rcases h with h | ⟨hne, hlt⟩
      · cases h
      · have hcond : ¬(s.tickHistory = [] ∨ s.tickHistory.getLast?.elim 0 Tick.epoch < e) :=
          fun hc => hc.elim hne hlt
        simp only [handleTick, if_neg hcond]

/-- Witness for C8: a concrete non-numeric tick is rejected outright. -/
theorem handleTick_rejects_witness :
    handleTick ⟨1, 2, 1/10, 99/100, 9/10, 1000⟩ blankState 0 ⟨1, none⟩ = (blankState, false) :=
  handleTick_rejects ⟨1, 2, 1/10, 99/100, 9/10, 1000⟩ blankState 0 ⟨1, none⟩ (Or.inl rfl)

lemma handleTick_anomalous_ingest (cfg : Config) (s : EngineState) (now e : ℕ) (q : ℚ)
    (prev : Tick) (rest : List Tick) (hhist : s.tickHistory = rest ++ [prev])
    (hlt : prev.epoch < e)
    (hanom : (if 20 ≤ s.tickHistory.length then
        calculateVolatility (s.tickHistory.map Tick.quote) 20 else 1) * 5 <
      ((|q - prev.quote| : ℚ) : ℝ)) :
    (handleTick cfg s now ⟨e, some q⟩).1.tickHistory.getLast? = some ⟨e, q, digitOf q⟩ ∧
      (handleTick cfg s now ⟨e, some q⟩).1.dataIntegrity =
        ⟨max (1/2) (s.dataIntegrity.score * (19/20)), s.dataIntegrity.recentAnomalies + 1⟩ ∧
      (handleTick cfg s now ⟨e, some q⟩).2 = false := by
  have hlast : s.tickHistory.getLast? = some prev := by
    rw [hhist]
    exact List.getLast?_concat _
  have hcond : s.tickHistory = [] ∨ s.tickHistory.getLast?.elim 0 Tick.epoch < e :=
    Or.inr (by rw [hlast]; exact hlt)
  have hvr : validateTick s.tickHistory s.dataIntegrity ⟨e, q, digitOf q⟩
      s.tickHistory.getLast? =
      ((⟨max (1/2) (s.dataIntegrity.score * (19/20)),
          s.dataIntegrity.recentAnomalies + 1⟩ : DataIntegrity), false) := by
    rw [hlast]
    simp only [validateTick]
    rw [if_pos hanom]
    rfl
  simp only [handleTick, if_pos hcond, hvr, Bool.false_eq_true, and_false, if_false]
  refine ⟨?_, ?_, trivial⟩
  · -- the new tick is the last element of the updated buffer
    split
    · split
      · rw [(autoTune_preserves cfg _).1]
        dsimp only
        rw [hhist, List.drop_append_of_le_length (by simp)]
        exact List.getLast?_concat _
      · dsimp only
        rw [hhist, List.drop_append_of_le_length (by simp)]
        exact List.getLast?_concat _
    · split
      · rw [(autoTune_preserves cfg _).1]
        dsimp only
        exact List.getLast?_concat _
      · dsimp only
        exact List.getLast?_concat _
  · -- the integrity state is the anomaly update
    split
    · split
      · rw [(autoTune_preserves cfg _).2.1]
      · rfl
    · split
      · rw [(autoTune_preserves cfg _).2.1]
      · rfl

/-- C4: for every reachable data-integrity state, an anomalous observation
(price jump above 5× the recent volatility) multiplies the score by 0.95
with floor 0.5, bumps the anomaly counter and suppresses the decision flag;
a clean observation while the score is below 1.0 raises the score by exactly
+0.01 (capped at 1.0, hence strictly increases it) and keeps the decision
flag enabled; and a tick flagged anomalous is still appended to the buffer
by `handleTick` while the analysis for that observation is suppressed. -/
theorem validateTickData_integrity :
    (∀ d : DataIntegrity, DIReachable d →
      ((validateTickData d true).1.score = max (1/2) (d.score * (19/20)) ∧
          (validateTickData d true).1.recentAnomalies = d.recentAnomalies + 1 ∧
          (validateTickData d true).2 = false) ∧
        (d.score < 1 →
          (validateTickData d false).1.score = min 1 (d.score + 1/100) ∧
            d.score < (validateTickData d false).1.score ∧
            (validateTickData d false).2 = true)) ∧
      ∀ (cfg : Config) (s : EngineState) (now e : ℕ) (q : ℚ) (prev : Tick)
        (rest : List Tick), s.tickHistory = rest ++ [prev] → prev.epoch < e →
        (if 20 ≤ s.tickHistory.length then
            calculateVolatility (s.tickHistory.map Tick.quote) 20 else 1) * 5 <
          ((|q - prev.quote| : ℚ) : ℝ) →
        (handleTick cfg s now ⟨e, some q⟩).1.tickHistory.getLast? = some ⟨e, q, digitOf q⟩ ∧
          (handleTick cfg s now ⟨e, some q⟩).1.dataIntegrity =
            ⟨max (1/2) (s.dataIntegrity.score * (19/20)),
              s.dataIntegrity.recentAnomalies + 1⟩ ∧
          (handleTick cfg s now ⟨e, some q⟩).2 = false :=
  ⟨fun d h => ⟨⟨rfl, rfl, rfl⟩, validateTickData_clean_recovery d h⟩,
    handleTick_anomalous_ingest⟩

/-- Witness for C4: from the initial state, one anomaly takes the score to
0.95 and rejects the tick; at the resulting (reachable) state ⟨0.95, 1⟩ a
clean observation restores +0.01 and enables the decision flag; and a
concrete anomalous tick (price jump 100 against recent volatility fallback
1) is still appended by `handleTick` with its analysis suppressed. -/
theorem validateTickData_integrity_witness :
    ((validateTickData ⟨1, 0⟩ true).1.score = max (1/2) (1 * (19/20)) ∧
        (validateTickData ⟨1, 0⟩ true).2 = false) ∧
      ((19/20 : ℚ) < 1 ∧
        (validateTickData ⟨19/20, 1⟩ false).1.score = min 1 (19/20 + 1/100) ∧
          (validateTickData ⟨19/20, 1⟩ false).2 = true) ∧
      ((handleTick ⟨1, 2, 1/10, 99/100, 9/10, 1000⟩
            { blankState with tickHistory := [⟨1, 0, 0⟩] } 0
            ⟨2, some 100⟩).1.tickHistory.getLast? = some ⟨2, 100, digitOf 100⟩ ∧
        (handleTick ⟨1, 2, 1/10, 99/100, 9/10, 1000⟩
            { blankState with tickHistory := [⟨1, 0, 0⟩] } 0 ⟨2, some 100⟩).2 = false) := by
  have hreach : DIReachable ⟨19/20, 1⟩ := by
    have h0 := DIReachable.step ⟨1, 0⟩ true DIReachable.init
    have he : (validateTickData ⟨1, 0⟩ true).1 = ⟨19/20, 1⟩ := by
      simp only [validateTickData, if_pos]
      norm_num
    rwa [he] at h0
  have hmain := validateTickData_integrity.1 ⟨19/20, 1⟩ hreach
  have hinit := validateTickData_integrity.1 ⟨1, 0⟩ DIReachable.init
  have hanom : (if 20 ≤ ({ blankState with tickHistory := [⟨1, 0, 0⟩]} :
        EngineState).tickHistory.length then
        calculateVolatility (({ blankState with tickHistory := [⟨1, 0, 0⟩]} :
          EngineState).tickHistory.map Tick.quote) 20 else 1) * 5 <
      ((|(100 : ℚ) - (⟨1, 0, 0⟩ : Tick).quote| : ℚ) : ℝ) := by
    rw [if_neg (by norm_num)]
    push_cast
    norm_num
  have hing := validateTickData_integrity.2 ⟨1, 2, 1/10, 99/100, 9/10, 1000⟩
    { blankState with tickHistory := [⟨1, 0, 0⟩] } 0 2 100 ⟨1, 0, 0⟩ [] rfl
    (by norm_num) hanom
  exact ⟨⟨hinit.1.1, hinit.1.2.2⟩, ⟨by norm_num, (hmain.2 (by norm_num)).1,
    (hmain.2 (by norm_num)).2.2⟩, hing.1, hing.2.2⟩

/-! ## The eight prediction models of `analyzeAndTrade` -/

/-- `calculateStatisticalProbability(recent)`: parity frequencies with a 10%
mean-reversion pull when the deviation from 0.5 exceeds 0.15. -/
def calculateStatisticalProbability (recent : List ℕ) : ℚ × ℚ :=
  let oddCount := (recent.filter fun t => t % 2 = 1).length
  let evenCount := recent.length - oddCount
  let oddProb : ℚ := (oddCount : ℚ) / (recent.length : ℚ)
  let evenProb : ℚ := (evenCount : ℚ) / (recent.length : ℚ)
  if 3/20 < |oddProb - 1/2| then
    let oddProb2 := oddProb + (if oddProb < 1/2 then (1/10 : ℚ) else -(1/10))
    (oddProb2, 1 - oddProb2)
  else (oddProb, evenProb)

/-- The four first-order transition frequencies of `calculateMarkovProbabilities`. -/
structure MarkovProbs where
  oddToOdd : ℚ
  oddToEven : ℚ
  evenToOdd : ℚ
  evenToEven : ℚ
deriving DecidableEq, Repr

/-- `calculateMarkovProbabilities(history)`: count class transitions over
consecutive pairs; rows are divided by `counts[prev] || 1`. -/
def calculateMarkovProbabilities (history : List ℕ) : MarkovProbs :=
  if history.length < 3 then ⟨1/2, 1/2, 1/2, 1/2⟩
  else
    let pairs := history.zip history.tail
    let countOdd := (pairs.filter fun p => p.1 % 2 == 1).length
    let countEven := (pairs.filter fun p => !(p.1 % 2 == 1)).length
    let dOdd : ℚ := if countOdd = 0 then 1 else countOdd
    let dEven : ℚ := if countEven = 0 then 1 else countEven
    ⟨((pairs.filter fun p => p.1 % 2 == 1 && p.2 % 2 == 1).length : ℚ) / dOdd,
      ((pairs.filter fun p => p.1 % 2 == 1 && !(p.2 % 2 == 1)).length : ℚ) / dOdd,
      ((pairs.filter fun p => !(p.1 % 2 == 1) && p.2 % 2 == 1).length : ℚ) / dEven,
      ((pairs.filter fun p => !(p.1 % 2 == 1) && !(p.2 % 2 == 1)).length : ℚ) / dEven⟩

open scoped Classical in
/-- `volatility > 0.6 ? -0.08 : volatility < 0.3 ? 0.05 : 0` (model 3 in
`analyzeAndTrade`). -/
noncomputable def volatilityAdjustment (volatility : ℝ) : ℝ :=
  if 0.6 < volatility then -0.08 else if volatility < 0.3 then 0.05 else 0

/-- The trend model's probability pair as assembled into `modelProbs`:
`{ odd: 0.5 + trendScore + volatilityAdjustment, even: 0.5 - trendScore +
volatilityAdjustment }`. -/
noncomputable def trendModelProbs (trendScore volAdj : ℝ) : ℝ × ℝ :=
  (0.5 + trendScore + volAdj, 0.5 - trendScore + volAdj)

/-- `trendScore = Math.tanh(trendStrength * 10) * 0.1` with `trendStrength =
(emaShort - emaLong) / emaLong`. -/
noncomputable def trendScoreOf (recent : List ℚ) : ℝ :=
  Real.tanh (((calculateEMA recent 10 : ℚ) : ℝ) - ((calculateEMA recent 50 : ℚ) : ℝ)) /
      ((calculateEMA recent 50 : ℚ) : ℝ) * 10 * 0.1

/-- The blended Q-learning pair: `q * 0.4 + deep * 0.6` per class. -/
def blendedQProbs (qOdd qEven deepQOdd deepQEven : ℚ) : ℚ × ℚ :=
  (qOdd * 0.4 + deepQOdd * 0.6, qEven * 0.4 + deepQEven * 0.6)

/-- The streak summary returned by `calculateStreak`. -/
structure Streak where
  length : ℕ
  type : Option Parity
  momentum : ℚ

/-- `calculateStreakAdjustments(streak)`: logarithmic anti-streak penalty
(active once the streak exceeds 3) offset by the momentum bonus. -/
noncomputable def calculateStreakAdjustments (streak : Streak) : ℝ × ℝ :=
  if 3 < streak.length then
    let streakPenalty := Real.log ((streak.length : ℝ) - 2) * 0.12
    let momentumBonus := (streak.momentum : ℝ) * 0.08
    if streak.type = some Parity.odd then
      (-streakPenalty + momentumBonus, streakPenalty - momentumBonus)
    else (streakPenalty - momentumBonus, -streakPenalty + momentumBonus)
  else (0, 0)

/-- The best-similarity fold of `analyzePatterns` over the pattern memory
(`similarity > bestSimilarity && similarity >= 0.8`). -/
def bestPatternMatch (patternMemory : List PatternEntry) (current : List ℕ) :
    Option PatternEntry × ℚ :=
  patternMemory.foldl
    (fun acc item =>
      if item.sequence.length ≠ 5 then acc
      else
        let similarity : ℚ := (((item.sequence.zip current).filter fun p => p.1 = p.2).length : ℚ) / 5
        if acc.2 < similarity ∧ 4/5 ≤ similarity then (some item, similarity) else acc)
    (none, 0)

/-- `analyzePatterns(recent)`: neutral 0.5/0.5 unless a stored 5-pattern
matches the current 5-class window with similarity ≥ 0.8, in which case
`0.5 + similarity * successRate * 0.3` goes toward its recorded outcome. -/
def analyzePatterns (recent : List ℕ) (patternMemory : List PatternEntry) : ℚ × ℚ :=
  if 10 ≤ recent.length ∧ patternMemory ≠ [] then
    match bestPatternMatch patternMemory ((recent.drop (recent.length - 5)).map (· % 2)) with
    | (some bestMatch, bestSimilarity) =>
        let c := bestSimilarity * bestMatch.successRate
        if bestMatch.nextOutcome = Parity.odd then (1/2 + c * (3/10), 1 - (1/2 + c * (3/10)))
        else (1 - (1/2 + c * (3/10)), 1/2 + c * (3/10))
    | (none, _) => (1/2, 1/2)
  else (1/2, 1/2)

open scoped Classical in
/-- `calculateEntropyAdjustments(entropy, state)`: anti-persistence bias for
entropy > 0.9, persistence bias for entropy < 0.7, neutral otherwise. -/
noncomputable def calculateEntropyAdjustments (entropy : ℝ) (state : Parity) : ℝ × ℝ :=
  if 0.9 < entropy then
    (if state = Parity.odd then -0.05 else 0.05, if state = Parity.even then -0.05 else 0.05)
  else if entropy < 0.7 then
    (if state = Parity.odd then 0.08 else -0.08, if state = Parity.even then 0.08 else -0.08)
  else (0, 0)

/-- The result record of `detectCyclicPattern`. -/
structure CycleInfo where
  hasCycle : Bool
  period : ℕ
  strength : ℚ
deriving DecidableEq, Repr

/-- `analyzeCyclicPattern(cycleInfo, recent)`: when a cycle of strength
above 0.7 is active, predict the class observed one period back, weighted
`0.5 + strength * 0.2`. -/
def analyzeCyclicPattern (cycleInfo : CycleInfo) (recent : List ℕ) : ℚ × ℚ :=
  if cycleInfo.hasCycle = true ∧ (7/10 : ℚ) < cycleInfo.strength then
    let cyclePrediction :=
      if (recent.getD (recent.length - cycleInfo.period) 0) % 2 = 1 then Parity.odd
      else Parity.even
    if cyclePrediction = Parity.odd then
      (1/2 + cycleInfo.strength * (1/5), 1 - (1/2 + cycleInfo.strength * (1/5)))
    else (1 - (1/2 + cycleInfo.strength * (1/5)), 1/2 + cycleInfo.strength * (1/5))
  else (1/2, 1/2)

/-- The per-period score of `detectCyclicPattern`: the fraction of positions
in the trailing window that repeat the class seen `period` earlier. -/
def cycleScore (sequence : List ℕ) (period : ℕ) : ℚ :=
  (((sequence.zip (sequence.drop period)).filter fun p => p.1 = p.2).length : ℚ) /
    ((sequence.zip (sequence.drop period)).length : ℚ)

/-- `detectCyclicPattern(history, maxPeriod)`: best-scoring period in
[2, maxPeriod] over the last `3 * maxPeriod` classes; a cycle is declared
when the best score exceeds 0.65. -/
def detectCyclicPattern (history : List ℕ) (maxPeriod : ℕ) : CycleInfo :=
  if history.length < maxPeriod * 2 then ⟨false, 0, 0⟩
  else
    let sequence := (history.drop (history.length - maxPeriod * 3)).map (· % 2)
    let best := (List.range' 2 (maxPeriod - 1)).foldl
      (fun (best : ℕ × ℚ) period =>
        if best.2 < cycleScore sequence period then (period, cycleScore sequence period)
        else best)
      (0, 0)
    ⟨decide ((13/20 : ℚ) < best.2), best.1, best.2⟩

lemma ema_fold_zeros (a b : ℚ) :
    ∀ n, (List.replicate n (0 : ℚ)).foldl (fun ema q => a * q + b * ema) 0 = 0 := by
  intro n
  induction n with
  | zero => rfl
  | succ k ih =>
      rw [List.replicate_succ, List.foldl_cons]
      simpa using ih

/-- A concrete 50-tick quote history (49 flat quotes then a jump to 100)
whose window-50 volatility exceeds 0.6. -/
def cexHistory : List ℚ := List.replicate 49 0 ++ [100]

lemma cexHistory_length : cexHistory.length = 50 := by simp [cexHistory]

lemma cexEMA : calculateEMA cexHistory 50 = 200/51 := by
  unfold calculateEMA
  rw [if_neg (by rw [cexHistory_length]; omega), cexHistory_length]
  norm_num
  have h2 : cexHistory = 0 :: (List.replicate 48 0 ++ [100]) := by
    show List.replicate 49 (0 : ℚ) ++ [100] = _
    rw [List.replicate_succ, List.cons_append]
  rw [h2]
  dsimp only
  rw [List.foldl_append, ema_fold_zeros]
  norm_num

lemma cex_getD : cexHistory.getD 49 0 = 100 := by
  unfold cexHistory
  rw [List.getD_eq_getElem?_getD, List.getElem?_append_right (by simp)]
  simp

lemma cex_vol : (3/5 : ℝ) < calculateVolatility cexHistory 50 := by
  unfold calculateVolatility
  rw [if_neg (by rw [cexHistory_length]; omega), cexHistory_length, cexEMA]
  norm_num
  have hterm : ∀ i ∈ Finset.range 50,
      (0 : ℝ) ≤ Real.exp (-(1/10 * (50 - (i : ℝ) - 1))) *
        (((cexHistory[i]?.getD 0 : ℚ) : ℝ) - 200/51) ^ 2 :=
    fun i _ => mul_nonneg (Real.exp_pos _).le (sq_nonneg _)
  have h49 := Finset.single_le_sum hterm (by simp : (49 : ℕ) ∈ Finset.range 50)
  have e1 : ((cexHistory[(49 : ℕ)]?.getD 0 : ℚ) : ℝ) = 100 := by
    unfold cexHistory
    rw [List.getElem?_append_right (by simp)]
    simp
  have e2 : Real.exp (-(1/10 * (50 - ((49 : ℕ) : ℝ) - 1))) = 1 := by
    norm_num
  rw [e1, e2, one_mul] at h49
  have hS0 : (0 : ℝ) ≤ ∑ i ∈ Finset.range 50,
      Real.exp (-(1/10 * (50 - (i : ℝ) - 1))) *
        (((cexHistory[i]?.getD 0 : ℚ) : ℝ) - 200/51) ^ 2 :=
    Finset.sum_nonneg hterm
  rw [← Real.sqrt_div hS0]
  rw [show (3/5 : ℝ) = Real.sqrt ((3/5) ^ 2) from (Real.sqrt_sq (by norm_num)).symm]
  apply Real.sqrt_lt_sqrt (by norm_num)
  norm_num at h49 ⊢
  nlinarith [h49]

lemma cex_volAdj : volatilityAdjustment (calculateVolatility cexHistory 50) = -0.08 := by
  unfold volatilityAdjustment
  rw [if_pos]
  calc (0.6 : ℝ) = 3/5 := by norm_num
  _ < _ := cex_vol

/-- C1 counterexample: on the concrete reachable history `cexHistory` the
window-50 volatility exceeds 0.6, so the trend model's probability pair is
`(0.5 + ts - 0.08, 0.5 - ts - 0.08)` and sums to 0.84, not 1. -/
theorem trendModelProbs_sum_ne_one :
    (trendModelProbs (trendScoreOf cexHistory)
          (volatilityAdjustment (calculateVolatility cexHistory 50))).1 +
        (trendModelProbs (trendScoreOf cexHistory)
          (volatilityAdjustment (calculateVolatility cexHistory 50))).2 ≠ 1 := by
  rw [cex_volAdj]
  unfold trendModelProbs
  intro h
  norm_num at h
  linarith

lemma length_filter_and_not {α : Type} (l : List α) (p q : α → Bool) :
    (l.filter fun a => p a && q a).length + (l.filter fun a => p a && !q a).length =
      (l.filter fun a => p a).length := by
  induction l with
  | nil => rfl
  | cons x t ih =>
      cases hp : p x <;> cases hq : q x <;>
        simp [List.filter_cons, hp, hq, ih] <;> omega

/-- C1 (amended): of the eight per-model probability pairs fed into fusion,
the statistical (on a nonempty window), streak, pattern, entropy and cyclic
pairs each sum to 1; a Markov row sums to 1 whenever the window contains at
least one transition out of the current class; the trend pair sums to
`1 + 2 * volatilityAdjustment`, which equals 1 exactly when volatility lies
in [0.3, 0.6]; and the blended Q pair sums to 1 whenever the shallow and
deep table rows each sum to 1 (as the default tables do). -/
theorem modelProbs_pair_sums :
    (∀ recent : List ℕ, recent ≠ [] →
      (calculateStatisticalProbability recent).1 +
        (calculateStatisticalProbability recent).2 = 1) ∧
    (∀ history : List ℕ,
      (0 < ((history.zip history.tail).filter fun p => p.1 % 2 == 1).length →
        (calculateMarkovProbabilities history).oddToOdd +
          (calculateMarkovProbabilities history).oddToEven = 1) ∧
      (0 < ((history.zip history.tail).filter fun p => !(p.1 % 2 == 1)).length →
        (calculateMarkovProbabilities history).evenToOdd +
          (calculateMarkovProbabilities history).evenToEven = 1)) ∧
    (∀ ts vol : ℝ,
      (trendModelProbs ts (volatilityAdjustment vol)).1 +
          (trendModelProbs ts (volatilityAdjustment vol)).2 =
        1 + 2 * volatilityAdjustment vol ∧
      (3/10 ≤ vol → vol ≤ 3/5 →
        (trendModelProbs ts (volatilityAdjustment vol)).1 +
          (trendModelProbs ts (volatilityAdjustment vol)).2 = 1)) ∧
    (∀ qOdd qEven deepQOdd deepQEven : ℚ, qOdd + qEven = 1 → deepQOdd + deepQEven = 1 →
      (blendedQProbs qOdd qEven deepQOdd deepQEven).1 +
        (blendedQProbs qOdd qEven deepQOdd deepQEven).2 = 1) ∧
    (∀ st : Streak,
      ((1/2 : ℝ) + (calculateStreakAdjustments st).1) +
        ((1/2 : ℝ) + (calculateStreakAdjustments st).2) = 1) ∧
    (∀ (recent : List ℕ) (pm : List PatternEntry),
      (analyzePatterns recent pm).1 + (analyzePatterns recent pm).2 = 1) ∧
    (∀ (entropy : ℝ) (state : Parity),
      ((1/2 : ℝ) + (calculateEntropyAdjustments entropy state).1) +
        ((1/2 : ℝ) + (calculateEntropyAdjustments entropy state).2) = 1) ∧
    (∀ (ci : CycleInfo) (recent : List ℕ),
      (analyzeCyclicPattern ci recent).1 + (analyzeCyclicPattern ci recent).2 = 1) := by
  refine ⟨?_, ?_, ?_, ?_, ?_, ?_, ?_, ?_⟩
  · -- statistical
    intro recent hne
    have hlen : (0 : ℚ) < (recent.length : ℚ) := by
      have : 0 < recent.length := List.length_pos.mpr hne
      exact_mod_cast this
    unfold calculateStatisticalProbability
    dsimp only
    split
    · ring
    · have hle : (recent.filter fun t => t % 2 = 1).length ≤ recent.length :=
        List.length_filter_le _ _
      rw [div_add_div_same, Nat.cast_sub hle]
      field_simp
  · -- markov
    intro history
    constructor
    · intro hodd
      by_cases hlen : history.length < 3
      · unfold calculateMarkovProbabilities
        rw [if_pos hlen]
        norm_num
      · unfold calculateMarkovProbabilities
        rw [if_neg hlen]
        dsimp only
        rw [div_add_div_same, if_neg (Nat.pos_iff_ne_zero.mp hodd)]
        rw [show (((history.zip history.tail).filter fun p =>
              p.1 % 2 == 1 && p.2 % 2 == 1).length : ℚ) +
            (((history.zip history.tail).filter fun p =>
              p.1 % 2 == 1 && !(p.2 % 2 == 1)).length : ℚ) =
            ((((history.zip history.tail).filter fun p =>
                p.1 % 2 == 1 && p.2 % 2 == 1).length +
              ((history.zip history.tail).filter fun p =>
                p.1 % 2 == 1 && !(p.2 % 2 == 1)).length : ℕ) : ℚ) from by push_cast; ring]
        rw [length_filter_and_not (history.zip history.tail) (fun p => p.1 % 2 == 1)
          (fun p => p.2 % 2 == 1)]
        exact div_self (by exact_mod_cast Nat.pos_iff_ne_zero.mp hodd)
    · intro heven
      by_cases hlen : history.length < 3
      · unfold calculateMarkovProbabilities
        rw [if_pos hlen]
        norm_num
      · unfold calculateMarkovProbabilities
        rw [if_neg hlen]
        dsimp only
        rw [div_add_div_same, if_neg (Nat.pos_iff_ne_zero.mp heven)]
        rw [show (((history.zip history.tail).filter fun p =>
              !(p.1 % 2 == 1) && p.2 % 2 == 1).length : ℚ) +
            (((history.zip history.tail).filter fun p =>
              !(p.1 % 2 == 1) && !(p.2 % 2 == 1)).length : ℚ) =
            ((((history.zip history.tail).filter fun p =>
                !(p.1 % 2 == 1) && p.2 % 2 == 1).length +
              ((history.zip history.tail).filter fun p =>
                !(p.1 % 2 == 1) && !(p.2 % 2 == 1)).length : ℕ) : ℚ) from by push_cast; ring]
        rw [length_filter_and_not (history.zip history.tail) (fun p => !(p.1 % 2 == 1))
          (fun p => p.2 % 2 == 1)]
        exact div_self (by exact_mod_cast Nat.pos_iff_ne_zero.mp heven)
  · -- trend
    intro ts vol
    constructor
    · unfold trendModelProbs
      ring
    · intro h3 h6
      have hva : volatilityAdjustment vol = 0 := by
        unfold volatilityAdjustment
        rw [if_neg (by push_neg; calc vol ≤ 3/5 := h6
              _ ≤ 0.6 := by norm_num),
          if_neg (by push_neg; calc (0.3 : ℝ) ≤ 3/10 := by norm_num
              _ ≤ vol := h3)]
      rw [hva]
      unfold trendModelProbs
      ring
  · -- blended Q
    intro qOdd qEven deepQOdd deepQEven hq hd
    unfold blendedQProbs
    dsimp only
    nlinarith [hq, hd]
  · -- streak
    intro st
    unfold calculateStreakAdjustments
    split
    · split <;> dsimp only <;> ring
    · norm_num
  · -- pattern
    intro recent pm
    unfold analyzePatterns
    split
    · rcases hbm : bestPatternMatch pm ((recent.drop (recent.length - 5)).map (· % 2)) with
        ⟨o, sim⟩
      cases o with
      | none => norm_num
      | some bm =>
          dsimp only
          split <;> ring
    · norm_num
  · -- entropy adjustments
    intro entropy state
    unfold calculateEntropyAdjustments
    split
    · cases state <;> simp <;> ring
    · split
      · cases state <;> simp <;> ring
      · norm_num
  · -- cyclic
    intro ci recent
    unfold analyzeCyclicPattern
    split
    · split <;> simp
    · norm_num

/-- Witness for C1 (amended) at concrete inputs: a singleton window for the
statistical model, the history [1,0,1] for both Markov rows, volatility 0.5
for the trend model, and the default half/half rows for the blended pair. -/
theorem modelProbs_pair_sums_witness :
    (([1] : List ℕ) ≠ [] ∧
      (calculateStatisticalProbability [1]).1 + (calculateStatisticalProbability [1]).2 = 1) ∧
    ((calculateMarkovProbabilities [1, 0, 1]).oddToOdd +
        (calculateMarkovProbabilities [1, 0, 1]).oddToEven = 1 ∧
      (calculateMarkovProbabilities [1, 0, 1]).evenToOdd +
        (calculateMarkovProbabilities [1, 0, 1]).evenToEven = 1) ∧
    (trendModelProbs 0 (volatilityAdjustment (1/2))).1 +
        (trendModelProbs 0 (volatilityAdjustment (1/2))).2 = 1 ∧
    (blendedQProbs (1/2) (1/2) (1/2) (1/2)).1 + (blendedQProbs (1/2) (1/2) (1/2) (1/2)).2 = 1 := by
  refine ⟨⟨by decide, modelProbs_pair_sums.1 [1] (by decide)⟩, ?_, ?_, ?_⟩
  · exact ⟨(modelProbs_pair_sums.2.1 [1, 0, 1]).1 (by decide),
      (modelProbs_pair_sums.2.1 [1, 0, 1]).2 (by decide)⟩
  · exact (modelProbs_pair_sums.2.2.1 0 (1/2)).2 (by norm_num) (by norm_num)
  · exact modelProbs_pair_sums.2.2.2.1 (1/2) (1/2) (1/2) (1/2) (by norm_num) (by norm_num)

/-! ## Entropy extractor: range and special distributions (C6) -/

lemma sum_digit_counts (l : List ℕ) :
    ∑ d in Finset.range 10, (l.filter fun x => x = d).length =
      (l.filter fun x => x < 10).length := by
  induction l with
  | nil => simp
  | cons x t ih =>
      have hterm : ∀ d, ((x :: t).filter fun y => y = d).length =
          (t.filter fun y => y = d).length + (if x = d then 1 else 0) := by
        intro d
        by_cases h : x = d <;> simp [List.filter_cons, h]
      rw [Finset.sum_congr rfl fun d _ => hterm d, Finset.sum_add_distrib, ih,
        Finset.sum_ite_eq (Finset.range 10) x fun _ => 1]
      by_cases hx : x < 10
      · rw [List.filter_cons_of_pos (by simpa using hx)]
        simp [Finset.mem_range.mpr hx]
      · rw [List.filter_cons_of_neg (by simpa using hx), if_neg (by simpa using hx)]
        simp

lemma entropySum_nonneg (digitCount : ℕ → ℕ) (window : ℕ)
    (hC : ∀ d, digitCount d ≤ window) : 0 ≤ entropySum digitCount window := by
  unfold entropySum
  refine Finset.sum_nonneg fun d _ => ?_
  split
  · rename_i hd
    have hw : 0 < window := lt_of_lt_of_le hd (hC d)
    have hp0 : (0 : ℝ) ≤ (digitCount d : ℝ) / (window : ℝ) :=
      div_nonneg (by positivity) (by positivity)
    have hp1 : (digitCount d : ℝ) / (window : ℝ) ≤ 1 := by
      rw [div_le_one (by exact_mod_cast hw)]
      exact_mod_cast hC d
    have hlb := Real.logb_nonpos (b := 2) (by norm_num) hp0 hp1
    nlinarith
  · exact le_refl 0

lemma entropySum_le (digitCount : ℕ → ℕ) (window : ℕ) (hw : 0 < window)
    (hsum : ∑ d in Finset.range 10, digitCount d ≤ window) :
    entropySum digitCount window ≤ Real.logb 2 10 := by
  have hlog2 : (0 : ℝ) < Real.log 2 := Real.log_pos (by norm_num)
  have hlog10 : (1 : ℝ) < Real.log 10 := by
    rw [show (1 : ℝ) = Real.log (Real.exp 1) from (Real.log_exp 1).symm]
    refine Real.log_lt_log (Real.exp_pos 1) ?_
    have := Real.exp_one_lt_d9
    linarith
  have hwR : (0 : ℝ) < (window : ℝ) := by exact_mod_cast hw
  -- termwise bound via log x ≤ x - 1 at x = 1 / (10 p)
  have hterm : ∀ d ∈ Finset.range 10,
      (if 0 < digitCount d then
          -(((digitCount d : ℝ) / window) * Real.logb 2 ((digitCount d : ℝ) / window))
        else 0) ≤
      (if 0 < digitCount d then
          1/10 - (digitCount d : ℝ) / window +
            ((digitCount d : ℝ) / window) * Real.log 10
        else 0) / Real.log 2 := by
    intro d _
    split
    · rename_i hd
      set p : ℝ := (digitCount d : ℝ) / window with hp
      have hppos : 0 < p := div_pos (by exact_mod_cast hd) hwR
      have hinv : Real.log (10 * p)⁻¹ ≤ (10 * p)⁻¹ - 1 :=
        Real.log_le_sub_one_of_pos (by positivity)
      have hlogp : -Real.log p = Real.log (10 * p)⁻¹ + Real.log 10 := by
        have h10p : Real.log (10 * p) = Real.log 10 + Real.log p :=
          Real.log_mul (by norm_num) (ne_of_gt hppos)
        have hInv : Real.log (10 * p)⁻¹ = -Real.log (10 * p) := Real.log_inv _
        rw [hInv, h10p]
        ring
      have hkey : -(p * Real.log p) ≤ 1/10 - p + p * Real.log 10 := by
        have h1 : -(p * Real.log p) = p * (-Real.log p) := by ring
        have h2 : p * (Real.log (10 * p)⁻¹ + Real.log 10) ≤
            p * (((10 * p)⁻¹ - 1) + Real.log 10) := by
          refine mul_le_mul_of_nonneg_left ?_ hppos.le
          linarith
        have h3 : p * (((10 * p)⁻¹ - 1) + Real.log 10) = 1/10 - p + p * Real.log 10 := by
          field_simp
          ring
        rw [h1, hlogp]
        linarith
      have heq : -(p * Real.logb 2 p) = (-(p * Real.log p)) / Real.log 2 := by
        rw [Real.logb]
        ring
      rw [heq]
      exact (div_le_div_iff_of_pos_right hlog2).mpr hkey
    · rw [zero_div]
  have hstep := Finset.sum_le_sum hterm
  rw [← Finset.sum_div] at hstep
  have hS : (∑ d in Finset.range 10,
      if 0 < digitCount d then
        1/10 - (digitCount d : ℝ) / window + ((digitCount d : ℝ) / window) * Real.log 10
      else 0) ≤ Real.log 10 := by
    rw [← Finset.sum_filter]
    set S := (Finset.range 10).filter (fun d => 0 < digitCount d) with hSdef
    have hcard : (S.card : ℝ) ≤ 10 := by
      have h1 : S.card ≤ (Finset.range 10).card :=
        Finset.card_filter_le (Finset.range 10) (fun d => 0 < digitCount d)
      rw [Finset.card_range] at h1
      exact_mod_cast h1
    have hsp0 : (0 : ℝ) ≤ ∑ d in S, (digitCount d : ℝ) / window :=
      Finset.sum_nonneg fun d _ => div_nonneg (by positivity) hwR.le
    have hsp1 : ∑ d in S, (digitCount d : ℝ) / window ≤ 1 := by
      rw [← Finset.sum_div]
      rw [div_le_one hwR]
      calc ∑ d in S, (digitCount d : ℝ) ≤ ∑ d in Finset.range 10, (digitCount d : ℝ) :=
            Finset.sum_le_sum_of_subset_of_nonneg (Finset.filter_subset _ _)
              (fun d _ _ => by positivity)
      _ = ((∑ d in Finset.range 10, digitCount d : ℕ) : ℝ) := by push_cast; ring
      _ ≤ (window : ℝ) := by exact_mod_cast hsum
    have hexpand : ∑ d in S,
        (1/10 - (digitCount d : ℝ) / window + ((digitCount d : ℝ) / window) * Real.log 10) =
        (S.card : ℝ) * (1/10) - (∑ d in S, (digitCount d : ℝ) / window) +
          (∑ d in S, (digitCount d : ℝ) / window) * Real.log 10 := by
      rw [Finset.sum_add_distrib, Finset.sum_sub_distrib, Finset.sum_const, ← Finset.sum_mul]
      simp [nsmul_eq_mul]
    rw [hexpand]
    nlinarith [mul_nonneg (sub_nonneg.mpr hsp1) (sub_nonneg.mpr hlog10.le)]
  calc entropySum digitCount window ≤ _ := hstep
  _ ≤ Real.log 10 / Real.log 2 := (div_le_div_iff_of_pos_right hlog2).mpr hS
  _ = Real.logb 2 10 := Real.log_div_log

lemma entropySum_uniform (digitCount : ℕ → ℕ) (k : ℕ) (hk : 0 < k)
    (hC : ∀ d ∈ Finset.range 10, digitCount d = k) :
    entropySum digitCount (10 * k) = Real.logb 2 10 := by
  unfold entropySum
  have hterm : ∀ d ∈ Finset.range 10,
      (if 0 < digitCount d then
        -(((digitCount d : ℝ) / ((10 * k : ℕ) : ℝ)) *
          Real.logb 2 ((digitCount d : ℝ) / ((10 * k : ℕ) : ℝ)))
      else 0) = (1/10) * Real.logb 2 10 := by
    intro d hd
    rw [hC d hd, if_pos hk]
    have hkR : (0 : ℝ) < (k : ℝ) := by exact_mod_cast hk
    have hp : (k : ℝ) / ((10 * k : ℕ) : ℝ) = 1/10 := by
      push_cast
      field_simp
      ring
    rw [hp, show Real.logb 2 (1/10 : ℝ) = -Real.logb 2 10 by rw [one_div, Real.logb_inv]]
    ring
  rw [Finset.sum_congr rfl hterm, Finset.sum_const, Finset.card_range, nsmul_eq_mul]
  ring

lemma entropySum_constant (digitCount : ℕ → ℕ) (window : ℕ) (hw : 0 < window)
    (hC : ∀ d ∈ Finset.range 10, digitCount d = 0 ∨ digitCount d = window) :
    entropySum digitCount window = 0 := by
  unfold entropySum
  refine Finset.sum_eq_zero fun d hd => ?_
  rcases hC d hd with h | h
  · rw [h]
    simp
  · rw [h, if_pos hw, div_self (by exact_mod_cast ne_of_gt hw : (window : ℝ) ≠ 0),
      Real.logb_one]
    ring

/-- C6: the entropy extractor always lands in [0, 1] (for a positive
window); it returns 0 when the history is shorter than the window, exactly 1
when the 10-way digit distribution over the window is perfectly uniform, and
exactly 0 when the window holds a single constant digit. -/
theorem calculateEntropy_spec :
    (∀ (history : List ℕ) (window : ℕ), 0 < window →
      0 ≤ calculateEntropy history window ∧ calculateEntropy history window ≤ 1) ∧
    (∀ (history : List ℕ) (window : ℕ), history.length < window →
      calculateEntropy history window = 0) ∧
    (∀ (history : List ℕ) (window k : ℕ), 0 < k → window = 10 * k →
      window ≤ history.length →
      (∀ d ∈ Finset.range 10,
        ((history.drop (history.length - window)).filter fun x => x = d).length = k) →
      calculateEntropy history window = 1) ∧
    (∀ (history : List ℕ) (window d0 : ℕ), 0 < window → window ≤ history.length →
      (∀ x ∈ history.drop (history.length - window), x = d0) →
      calculateEntropy history window = 0) := by
  have hlogb10 : (0 : ℝ) < Real.logb 2 10 := Real.logb_pos (by norm_num) (by norm_num)
  refine ⟨?_, ?_, ?_, ?_⟩
  · -- range
    intro history window hw
    unfold calculateEntropy
    split
    · norm_num
    · rename_i hlen
      have hrlen : (history.drop (history.length - window)).length = window := by
        rw [List.length_drop]
        omega
      have hCle : ∀ d,
          ((history.drop (history.length - window)).filter fun x => x = d).length ≤ window := by
        intro d
        calc ((history.drop (history.length - window)).filter fun x => x = d).length ≤
            (history.drop (history.length - window)).length := List.length_filter_le _ _
        _ = window := hrlen
      have hsum : ∑ d in Finset.range 10,
          ((history.drop (history.length - window)).filter fun x => x = d).length ≤ window := by
        rw [sum_digit_counts]
        calc ((history.drop (history.length - window)).filter fun x => x < 10).length ≤
            (history.drop (history.length - window)).length := List.length_filter_le _ _
        _ = window := hrlen
      constructor
      · exact div_nonneg (entropySum_nonneg _ _ hCle) hlogb10.le
      · rw [div_le_one hlogb10]
        exact entropySum_le _ _ hw hsum
  · -- short history
    intro history window hlen
    unfold calculateEntropy
    rw [if_pos hlen]
  · -- uniform distribution
    intro history window k hk hwk hle hC
    unfold calculateEntropy
    rw [if_neg (by omega)]
    subst hwk
    rw [entropySum_uniform _ k hk hC]
    exact div_self (ne_of_gt hlogb10)
  · -- constant digit
    intro history window d0 hw hle hall
    unfold calculateEntropy
    rw [if_neg (by omega)]
    have hrlen : (history.drop (history.length - window)).length = window := by
      rw [List.length_drop]
      omega
    have hC : ∀ d ∈ Finset.range 10,
        ((history.drop (history.length - window)).filter fun x => x = d).length = 0 ∨
        ((history.drop (history.length - window)).filter fun x => x = d).length = window := by
      intro d _
      by_cases hd : d = d0
      · right
        subst hd
        rw [List.filter_eq_self.mpr fun a ha => by simpa using hall a ha]
        exact hrlen
      · left
        rw [List.filter_eq_nil_iff.mpr fun a ha => by
          simp only [decide_eq_true_eq]
          intro he
          exact hd (he ▸ (hall a ha).symm ▸ rfl)]
        rfl
    rw [entropySum_constant _ window hw hC, zero_div]

/-- Witness for C6: the uniform window 0..9 has entropy exactly 1, a
too-short history gives 0, and a constant window gives 0. -/
theorem calculateEntropy_spec_witness :
    calculateEntropy [0, 1, 2, 3, 4, 5, 6, 7, 8, 9] 10 = 1 ∧
      calculateEntropy [1] 2 = 0 ∧ calculateEntropy [3, 3, 3] 3 = 0 := by
  refine ⟨?_, ?_, ?_⟩
  · exact calculateEntropy_spec.2.2.1 [0, 1, 2, 3, 4, 5, 6, 7, 8, 9] 10 1 (by norm_num)
      (by norm_num) (by norm_num) (by decide)
  · exact calculateEntropy_spec.2.1 [1] 2 (by norm_num)
  · exact calculateEntropy_spec.2.2.2 [3, 3, 3] 3 3 (by norm_num) (by norm_num) (by decide)

/-! ## Cyclic detector on an exact period-2 alternation (C7) -/

lemma cycleScore_le_one (sequence : List ℕ) (period : ℕ) :
    cycleScore sequence period ≤ 1 := by
  unfold cycleScore
  rcases Nat.eq_zero_or_pos (sequence.zip (sequence.drop period)).length with h | h
  · have hf : ((sequence.zip (sequence.drop period)).filter fun p => p.1 = p.2).length = 0 :=
      Nat.le_zero.mp (h ▸ List.length_filter_le _ _)
    rw [hf, h]
    norm_num
  · rw [div_le_one (by exact_mod_cast h)]
    exact_mod_cast List.length_filter_le _ _

lemma foldl_best_stays (score : ℕ → ℚ) (l : List ℕ) (b : ℕ × ℚ) (hb : 1 ≤ b.2)
    (hs : ∀ p ∈ l, score p ≤ 1) :
    l.foldl (fun best period => if best.2 < score period then (period, score period) else best)
      b = b := by
  induction l with
  | nil => rfl
  | cons x t ih =>
      rw [List.foldl_cons,
        if_neg (not_lt.mpr (le_trans (hs x (List.mem_cons_self x t)) hb))]
      exact ih fun p hp => hs p (List.mem_cons_of_mem _ hp)

/-- C7: on any history whose digit classes alternate with exact period 2
(class of index i is `(i + b) % 2`) and which holds at least 60
observations, `detectCyclicPattern(history, 20)` returns
`{ hasCycle: true, period: 2, strength: 1.0 }`. -/
theorem detectCyclicPattern_alternating (history : List ℕ) (b : ℕ)
    (hlen : 60 ≤ history.length)
    (halt : ∀ i ∈ List.range history.length, history.getD i 0 % 2 = (i + b) % 2) :
    detectCyclicPattern history 20 = ⟨true, 2, 1⟩ := by
  unfold detectCyclicPattern
  rw [if_neg (by omega)]
  dsimp only
  set i0 := history.length - 20 * 3 with hi0
  set sequence := (history.drop i0).map (· % 2) with hseq
  have hslen : sequence.length = 60 := by
    rw [hseq, List.length_map, List.length_drop]
    omega
  have hchar : ∀ j, j < 60 → sequence.getD j 0 = (i0 + j + b) % 2 := by
    intro j hj
    have hjs : j < sequence.length := by omega
    have hidx : i0 + j < history.length := by omega
    have heq := halt (i0 + j) (List.mem_range.mpr hidx)
    rw [List.getD_eq_getElem?_getD, List.getElem?_eq_getElem hidx] at heq
    rw [List.getD_eq_getElem?_getD, List.getElem?_eq_getElem hjs]
    simp only [Option.getD_some, hseq, List.getElem_map, List.getElem_drop]
    simp only [Option.getD_some] at heq
    exact heq
  have hzlen : (sequence.zip (sequence.drop 2)).length = 58 := by
    rw [List.length_zip, List.length_drop, hslen]
    omega
  have hscore2 : cycleScore sequence 2 = 1 := by
    unfold cycleScore
    have hall : (sequence.zip (sequence.drop 2)).filter (fun p => p.1 = p.2) =
        sequence.zip (sequence.drop 2) := by
      apply List.filter_eq_self.mpr
      intro a ha
      obtain ⟨j, hjlt, hja⟩ := List.mem_iff_getElem.mp ha
      have hj58 : j < 58 := by rw [hzlen] at hjlt; exact hjlt
      have hjs : j < sequence.length := by omega
      have hjs2 : 2 + j < sequence.length := by omega
      have hd2 : j < (sequence.drop 2).length := by
        rw [List.length_drop]
        omega
      rw [List.getElem_zip] at hja
      have h1 : sequence.getD j 0 = (i0 + j + b) % 2 := hchar j (by omega)
      have h3 : sequence.getD (2 + j) 0 = (i0 + (2 + j) + b) % 2 := hchar (2 + j) (by omega)
      rw [List.getD_eq_getElem?_getD, List.getElem?_eq_getElem hjs] at h1
      rw [List.getD_eq_getElem?_getD, List.getElem?_eq_getElem hjs2] at h3
      simp only [Option.getD_some] at h1 h3
      have h2 : (sequence.drop 2)[j] = sequence[2 + j] := List.getElem_drop sequence
      rw [← hja]
      simp only [decide_eq_true_eq]
      rw [h1, h2, h3]
      omega
    rw [hall, hzlen]
    norm_num
  have hrest : ∀ p ∈ List.range' 3 18, cycleScore sequence p ≤ 1 :=
    fun p _ => cycleScore_le_one sequence p
  rw [show List.range' 2 (20 - 1) = 2 :: List.range' 3 18 from rfl, List.foldl_cons]
  rw [hscore2, if_pos (by norm_num)]
  rw [foldl_best_stays (cycleScore sequence) (List.range' 3 18) (2, 1) (by norm_num) hrest]
  have hdec : decide ((13/20 : ℚ) < (2, (1 : ℚ)).2) = true :=
    decide_eq_true (by norm_num)
  rw [hdec]

/-- A concrete exact period-2 alternating class history of length 60. -/
def altHistory : List ℕ := (List.range 60).map (· % 2)

/-- Witness for C7: the concrete alternating history 0,1,0,1,… of length 60
yields period 2, strength 1.0, hasCycle true. -/
theorem detectCyclicPattern_alternating_witness :
    60 ≤ altHistory.length ∧ detectCyclicPattern altHistory 20 = ⟨true, 2, 1⟩ :=
  ⟨by decide, detectCyclicPattern_alternating altHistory 0 (by decide) (by decide)⟩

end DerivBot